import Mathlib

/-!
# Verification of `migrate_to_pep621.py`

A shallow embedding of the translation engine of `migrate_to_pep621.py`
(Poetry → PEP 621 pyproject converter) together with proofs about the
constraint translator, the dependency-specifier builder, the author parser
and the document serializer.

Python strings are modelled as Lean `String` (a wrapper around `List Char`);
Python's `str` helpers (`split`, `strip`, `startswith`, `lower`, `int(...)`,
`str.join`) are given structurally recursive Lean counterparts below so that
all definitions are executable and kernel-reducible.  `int(...)` is modelled
on the grammar actually exercised by version constraints: an optional `-`
sign followed by decimal digits (Python's additional tolerance for `+`,
underscores and surrounding whitespace is never exercised here).  Fallible
code (Python exceptions) is modelled with `Option`.
-/

/-- Python `str.isspace` characters relevant to `str.strip()` (ASCII subset). -/
def pyIsSpace (c : Char) : Bool :=
  c = ' ' || c = '\t' || c = '\n' || c = '\r' || c = '\x0b' || c = '\x0c'

/-- Python `s.strip()`: drop leading and trailing whitespace. -/
def pyStrip (s : String) : String :=
  String.mk (((s.data.dropWhile pyIsSpace).reverse.dropWhile pyIsSpace).reverse)

/-- Python `s.startswith(c)` for a one-character head test. -/
def pyStartsWith (s : String) (c : Char) : Bool :=
  s.data.head? = some c

/-- Python `s[1:]`. -/
def pyDrop1 (s : String) : String :=
  String.mk s.data.tail

/-- Python `s.split(c)` on a one-character separator (on char lists).
`splitOnChar c [] = [[]]`, matching Python's `"".split(".") == [""]`. -/
def splitOnChar (c : Char) : List Char → List (List Char)
  | [] => [[]]
  | x :: xs =>
    if x = c then [] :: splitOnChar c xs
    else
      match splitOnChar c xs with
      | [] => [[x]]
      | h :: t => (x :: h) :: t

/-- Python `s.split(c)` at the `String` level. -/
def pySplit (s : String) (c : Char) : List String :=
  (splitOnChar c s.data).map String.mk

/-- The decimal digit character for `d` (`d` is always `< 10` where used). -/
def digitChar10 : Nat → Char
  | 0 => '0' | 1 => '1' | 2 => '2' | 3 => '3' | 4 => '4'
  | 5 => '5' | 6 => '6' | 7 => '7' | 8 => '8' | _ => '9'

/-- Numeric value of a digit character. -/
def charVal (c : Char) : Nat := c.toNat - 48

/-- Fuel-driven rendering of the decimal digits of `n` (most significant first);
empty for `n = 0`. -/
def natToCharsAux : Nat → Nat → List Char
  | 0, _ => []
  | fuel + 1, n => if n = 0 then [] else natToCharsAux fuel (n / 10) ++ [digitChar10 (n % 10)]

/-- Python `str(n)` for a natural number, as a char list. -/
def natToChars (n : Nat) : List Char :=
  if n = 0 then ['0'] else natToCharsAux (n + 1) n

/-- Python `str(n)` for a natural number. -/
def natToStr (n : Nat) : String := String.mk (natToChars n)

/-- Python `str(i)` for an integer. -/
def intToStr (i : Int) : String :=
  if i < 0 then String.mk ('-' :: natToChars i.natAbs) else natToStr i.toNat

/-- Parse a non-empty all-digit char list as a natural number (else `none`). -/
def parseDigits? (cs : List Char) : Option Nat :=
  if cs = [] then none
  else if cs.all Char.isDigit then some (cs.foldl (fun a c => 10 * a + charVal c) 0)
  else none

/-- Python `int(s)` restricted to an optional `-` sign plus decimal digits. -/
def pyIntChars? (cs : List Char) : Option Int :=
  if cs.head? = some '-' then (parseDigits? cs.tail).map (fun n => -(n : Int))
  else (parseDigits? cs).map (fun n => (n : Int))

/-- Python `int(s)` at the `String` level. -/
def pyInt? (s : String) : Option Int := pyIntChars? s.data

/-- Python `sep.join(parts)`. -/
def joinSep (sep : String) : List String → String
  | [] => ""
  | [x] => x
  | x :: y :: t => x ++ sep ++ joinSep sep (y :: t)

/-- Python `str.lower` (ASCII letters, which is all the tool compares). -/
def pyLower (s : String) : String :=
  String.mk (s.data.map Char.toLower)

/-- Truthiness of an optional Python string: `None` and `""` are falsy. -/
def truthyS : Option String → Bool
  | none => false
  | some s => s ≠ ""

/-- Python `a or b` on optional strings (first truthy value wins). -/
def pyOrS (a b : Option String) : Option String :=
  if truthyS a then a else b

/-! ## ConstraintTranslator (`caret_to_range`, `tilde_to_range`,
`normalize_version_constraint`) -/

/-- `caret_to_range` from the source: `^`-constraints become
`>=maj.minor.patch,<upper` where the upper bound bumps the leftmost
non-zero of the first three (zero-padded) components.  `none` models the
`ValueError` Python's `int` raises on a malformed component. -/
def caret_to_range (ver : String) : Option String :=
  if pyStartsWith ver '^' then
    match (pySplit (pyDrop1 ver) '.').mapM pyInt? with
    | none => none
    | some parts =>
      let parts3 := parts ++ List.replicate (3 - parts.length) 0
      let maj := parts3.getD 0 0
      let minor := parts3.getD 1 0
      let patch := parts3.getD 2 0
      let upper :=
        if 0 < maj then intToStr (maj + 1) ++ ".0.0"
        else if 0 < minor then "0." ++ intToStr (minor + 1) ++ ".0"
        else "0.0." ++ intToStr (patch + 1)
      some (">=" ++ intToStr maj ++ "." ++ intToStr minor ++ "." ++ intToStr patch ++ ",<" ++ upper)
  else some ver

/-- `tilde_to_range` from the source.  Note the one-component case embeds the
raw component text in the lower bound (`f"{parts[0]}.0"`) but parses it for
the upper bound. -/
def tilde_to_range (ver : String) : Option String :=
  if pyStartsWith ver '~' then
    let parts := pySplit (pyDrop1 ver) '.'
    if parts.length = 1 then
      (pyInt? (parts.getD 0 "")).map (fun x =>
        ">=" ++ parts.getD 0 "" ++ ".0,<" ++ intToStr (x + 1) ++ ".0")
    else if parts.length = 2 then
      match pyInt? (parts.getD 0 ""), pyInt? (parts.getD 1 "") with
      | some major, some minor =>
        some (">=" ++ intToStr major ++ "." ++ intToStr minor ++ ",<" ++
              intToStr major ++ "." ++ intToStr (minor + 1))
      | _, _ => none
    else
      match pyInt? (parts.getD 0 ""), pyInt? (parts.getD 1 ""), pyInt? (parts.getD 2 "") with
      | some major, some minor, some patch =>
        some (">=" ++ intToStr major ++ "." ++ intToStr minor ++ "." ++ intToStr patch ++ ",<" ++
              intToStr major ++ "." ++ intToStr (minor + 1) ++ ".0")
      | _, _, _ => none
  else some ver

/-- `normalize_version_constraint` from the source: strip, then dispatch on
the first character. -/
def normalize_version_constraint (ver : String) : Option String :=
  let v := pyStrip ver
  if pyStartsWith v '^' then caret_to_range v
  else if pyStartsWith v '~' then tilde_to_range v
  else some v

/-! ### Specification-side value functions (from the claims' wording) -/

/-- Canonical rendering of a dot-separated version from numeric components. -/
def showVer (ps : List Nat) : String := joinSep "." (ps.map natToStr)

/-- "zero-padded to three components" (the claims' wording). -/
def padTo3 (ps : List Nat) : List Nat := ps ++ List.replicate (3 - ps.length) 0

/-- "bump the leftmost non-zero component by 1 and zero everything to its
right; if major>0 bump major; else if minor>0 bump minor; else bump patch"
(the claims' wording, on a three-component version). -/
def bumpLeftmostNonzero (ps : List Nat) : List Nat :=
  match ps with
  | [a, b, c] => if 0 < a then [a + 1, 0, 0] else if 0 < b then [0, b + 1, 0] else [0, 0, c + 1]
  | l => l

/-- The tilde table from the claims: `X ↦ >=X.0,<(X+1).0`;
`X.Y ↦ >=X.Y,<X.(Y+1)`; `X.Y.Z ↦ >=X.Y.Z,<X.(Y+1).0`. -/
def tildeExpected : List Nat → Option String
  | [x] => some (">=" ++ natToStr x ++ ".0,<" ++ natToStr (x + 1) ++ ".0")
  | [x, y] => some (">=" ++ natToStr x ++ "." ++ natToStr y ++ ",<" ++
                    natToStr x ++ "." ++ natToStr (y + 1))
  | [x, y, z] => some (">=" ++ natToStr x ++ "." ++ natToStr y ++ "." ++ natToStr z ++ ",<" ++
                       natToStr x ++ "." ++ natToStr (y + 1) ++ ".0")
  | _ => none

/-! ## SpecifierBuilder (`dep_table_to_pep508`, `poetry_deps_to_pep621`)

A Poetry dependency value is dynamically either a constraint string, a TOML
table, or something else (rendered through `str(...)`).  The table variant
records exactly the keys the source inspects; an `Option` field is `some v`
iff the key is present. -/

/-- The keys of a table-valued dependency entry that the source reads. -/
structure DepTable where
  path : Option String := none
  develop : Bool := false
  git : Option String := none
  rev : Option String := none
  tag : Option String := none
  branch : Option String := none
  version : Option String := none
  extras : Option (List String) := none
  markers : Option String := none
deriving DecidableEq

/-- The dynamic shape of a dependency value (`isinstance` dispatch in the
source).  `other` carries the `str(val)` rendering of a value that is neither
a string nor a table. -/
inductive DepVal where
  | str (s : String)
  | table (t : DepTable)
  | other (text : String)
deriving DecidableEq

/-- `Path(p).expanduser()`: expand a leading `~` or `~/` using `home`.
(`~user` forms are not modelled; no claim depends on them.) -/
def pyExpanduser (home p : String) : String :=
  match p.data with
  | ['~'] => home
  | '~' :: '/' :: rest => home ++ String.mk ('/' :: rest)
  | _ => p

/-- `path if path.is_absolute() else (Path.cwd() / path).resolve()`, modelled
as a plain join on the working directory; `..`/symlink normalization by
`.resolve()` is not modelled (no claim depends on it). -/
def pyAbsPath (cwd p : String) : String :=
  if pyStartsWith p '/' then p else cwd ++ "/" ++ p

/-- The advisory warning text for an editable (`develop = true`) path
dependency, verbatim from the source. -/
def editable_warning (name path : String) : String :=
  "[editable-warning] " ++ name ++
    " uses develop=true (editable). PEP 621 cannot encode this. Use `pip install -e " ++
    path ++ "` inside the venv for live edits."

/-- `dep_table_to_pep508` from the source: renders one dependency and
returns the advisory warnings it emits (the Python version appends them to a
caller-supplied list; we return the appended suffix explicitly).  `none`
models a `ValueError` escaping from `int(...)` on a malformed constraint. -/
def dep_table_to_pep508 (cwd home name : String) (val : DepVal) :
    Option (String × List String) :=
  match val with
  | .str s =>
    (normalize_version_constraint s).map (fun constraint =>
      (if constraint ≠ "" then name ++ " " ++ constraint else name, []))
  | .table t =>
    match t.path with
    | some p0 =>
      let path := pyExpanduser home p0
      let ws := if t.develop then [editable_warning name path] else []
      let abs_path := pyAbsPath cwd path
      some (name ++ " @ file://" ++ abs_path, ws)
    | none =>
      match t.git with
      | some url =>
        let ref := pyOrS (pyOrS t.rev t.tag) t.branch
        some (if truthyS ref then name ++ " @ git+" ++ url ++ "@" ++ ref.getD ""
              else name ++ " @ git+" ++ url, [])
      | none =>
        let extras := t.extras.getD []
        let nm := if extras ≠ [] then name ++ "[" ++ joinSep "," extras ++ "]" else name
        match (if truthyS t.version
               then (normalize_version_constraint (t.version.getD "")).map (fun c => [c])
               else some []) with
        | none => none
        | some vparts =>
          let mparts := if truthyS t.markers then ["; " ++ t.markers.getD ""] else []
          some (joinSep " " (nm :: (vparts ++ mparts)), [])
  | .other s => some (s, [])

/-- Iterate the dependency mapping in order, skipping the reserved `python`
key, rendering each entry and collecting warnings in encounter order. -/
def deps_render (cwd home : String) : List (String × DepVal) → Option (List String × List String)
  | [] => some ([], [])
  | (n, v) :: rest =>
    if pyLower n = "python" then deps_render cwd home rest
    else
      match dep_table_to_pep508 cwd home n v with
      | none => none
      | some (s, w) =>
        match deps_render cwd home rest with
        | none => none
        | some (out, ws) => some (s :: out, w ++ ws)

/-- Lexicographic (code-point) order on char lists: Python's `<=` on strings. -/
def lexLe : List Char → List Char → Bool
  | [], _ => true
  | _ :: _, [] => false
  | a :: as, b :: bs => if a = b then lexLe as bs else decide (a < b)

/-- Python's `sorted(out, key=str.lower)`: the unique stable sort under the
case-insensitive order (realized here as insertion sort, which is stable and
extensionally equal to any stable sort for a total preorder). -/
def pySortedByLower (l : List String) : List String :=
  List.insertionSort (fun a b => lexLe (pyLower a).data (pyLower b).data = true) l

/-- `poetry_deps_to_pep621` from the source. -/
def poetry_deps_to_pep621 (cwd home : String) (deps : List (String × DepVal)) :
    Option (List String × List String) :=
  (deps_render cwd home deps).map (fun r => (pySortedByLower r.1, r.2))

/-- First option in the list carrying a non-empty string, if any (the amended
C9 wording: priority order with empty values skipped). -/
def firstTruthy : List (Option String) → Option String
  | [] => none
  | o :: rest => if truthyS o then o else firstTruthy rest

/-- Keep-predicate of the dependency loop: every key except `python`. -/
def keepDep (nv : String × DepVal) : Bool := !(pyLower nv.1 == "python")

/-- The rendered string of a single dependency entry, ignoring warnings. -/
def renderDep (cwd home : String) (nv : String × DepVal) : Option String :=
  (dep_table_to_pep508 cwd home nv.1 nv.2).map Prod.fst

/-! ## AuthorParser (`parse_authors`) -/

/-- A parsed author entry: `email` is present iff the regex email group
participated in the match. -/
structure Author where
  name : String
  email : Option String
deriving DecidableEq

/-- Whether `rest` has the shape `mid ++ ['>']` with `mid` non-empty and
`>`-free: the `<(?P<email>[^>]+)>` group can close exactly at the end of the
stripped author string. -/
def goodEmailTail (rest : List Char) : Bool :=
  match rest.reverse with
  | '>' :: mid => !mid.isEmpty && !mid.contains '>'
  | _ => false

/-- Scan for the earliest `<` opening a `<...>` group that runs to the end of
the stripped string, has non-empty `>`-free contents, and a non-empty prefix
before it — exactly the split chosen by the author regex
`^\s*(?P<name>.+?)\s*(?:<(?P<email>[^>]+)>)?\s*$` (the lazy name group makes
the engine take the earliest feasible `<`). -/
def splitEmailAux : List Char → List Char → Option (List Char × List Char)
  | _, [] => none
  | pre, c :: rest =>
    if c = '<' ∧ pre ≠ [] ∧ goodEmailTail rest then some (pre.reverse, rest.dropLast)
    else splitEmailAux (c :: pre) rest

/-- One author line parsed as the source's regex does; the regex fails (and
falls back to the raw string) only on the empty string, since the lazy name
group needs at least one character. -/
def parse_author (s : String) : Author :=
  if s.data = [] then { name := s, email := none }
  else
    match splitEmailAux [] (pyStrip s).data with
    | some (preChars, mid) =>
      { name := pyStrip (String.mk preChars), email := some (pyStrip (String.mk mid)) }
    | none => { name := pyStrip s, email := none }

/-- `parse_authors` from the source. -/
def parse_authors (authors : List String) : List Author := authors.map parse_author

/-! ## DocumentSerializer (`toml_escape`, `dump_toml_array_str`,
`build_pep621_toml`) -/

/-- `toml_escape` from the source: escape backslash, then double-quote (the
two sequential `replace` calls amount to one per-character expansion). -/
def toml_escape (s : String) : String :=
  String.mk ((s.data.map (fun c =>
    if c = '\\' then ['\\', '\\'] else if c = '"' then ['\\', '"'] else [c])).flatten)

/-- `dump_toml_array_str` from the source: multi-line array with `",\n"`
between elements. -/
def dump_toml_array_str (arr : List String) (indent : Nat) : String :=
  let pad := String.mk (List.replicate indent ' ')
  let items := joinSep ",\n" (arr.map (fun x => pad ++ "\"" ++ toml_escape x ++ "\""))
  "[\n" ++ items ++ "\n" ++ String.mk (List.replicate (indent - 2) ' ') ++ "]"

/-- One rendered element of the `authors = [...]` array (note the trailing
comma on every element, the closing brace escaped as `\x7d` only in this
Lean source, not in the output). -/
def author_line (a : Author) : String :=
  match a.email with
  | some e => "  \x7b name = \"" ++ toml_escape a.name ++ "\", email = \"" ++
      toml_escape e ++ "\" \x7d,"
  | none => "  \x7b name = \"" ++ toml_escape a.name ++ "\" \x7d,"

/-- The `[tool.poetry.group.<name>]` table (only its `dependencies` key is
read by the source). -/
structure PoetryGroup where
  dependencies : List (String × DepVal) := []
deriving DecidableEq

/-- The `[tool.poetry]` table restricted to the keys the source reads; an
`Option` field is `some v` iff the key is present; mappings keep insertion
order as association lists. -/
structure Poetry where
  name : Option String := none
  version : Option String := none
  description : Option String := none
  readme : Option String := none
  authors : List String := []
  license : Option String := none
  homepage : Option String := none
  repository : Option String := none
  documentation : Option String := none
  dependencies : List (String × DepVal) := []
  group : List (String × PoetryGroup) := []
  scripts : List (String × String) := []
deriving DecidableEq

/-- The `[build-system]` table restricted to the two keys the source reads
(`requires` and `build-backend`). -/
structure BuildSystem where
  requires : Option (List String) := none
  backend : Option String := none
deriving DecidableEq

/-- Python `dict.get` on an insertion-ordered mapping. -/
def pyGet {α : Type} (l : List (String × α)) (k : String) : Option α :=
  (l.find? (fun p => p.1 == k)).map Prod.snd

/-- Truthiness of the `build-system` dict (`build_system or {...default...}`):
an absent or empty table is falsy. -/
def bsTruthy (bs : BuildSystem) : Bool := bs.requires.isSome || bs.backend.isSome

/-- The default build-system injected by the source. -/
def defaultBuildSystem : BuildSystem :=
  { requires := some ["poetry-core>=1.9.0"], backend := some "poetry.core.masonry.api" }

/-- `poetry.get("group", {}).get("dev", {}).get("dependencies", {})`: the only
group the source ever consults. -/
def dev_dependencies_table (p : Poetry) : List (String × DepVal) :=
  match pyGet p.group "dev" with
  | some g => g.dependencies
  | none => []

/-- The `[project.urls]` pairs, in the source's fixed label order. -/
def urls_pairs (p : Poetry) : List (String × String) :=
  (if truthyS p.homepage then [("Homepage", p.homepage.getD "")] else [])
  ++ (if truthyS p.repository then [("Repository", p.repository.getD "")] else [])
  ++ (if truthyS p.documentation then [("Documentation", p.documentation.getD "")] else [])

/-- The `requires = [...]` line: note the *inline* `", "`-joined array. -/
def requires_line (requires : List String) : String :=
  "requires = [" ++ joinSep ", " (requires.map (fun x => "\"" ++ toml_escape x ++ "\"")) ++ "]"

/-- The `build-backend = "..."` line. -/
def backend_line (backend : String) : String :=
  "build-backend = \"" ++ toml_escape backend ++ "\""

/-- The `[build-system]` block emitted at the end of every document. -/
def build_system_lines (bs : BuildSystem) : List String :=
  ["", "[build-system]",
   requires_line (bs.requires.getD ["poetry-core>=1.9.0"]),
   backend_line (bs.backend.getD "poetry.core.masonry.api")]

/-- The trailing migration-notes comment block. -/
def warnings_lines (ws : List String) : List String :=
  if ws = [] then [] else ["", "# --- Migration notes ---"] ++ ws.map (fun w => "# " ++ w)

/-- A `key = "value"` line. -/
def kv_line (kv : String × String) : String := kv.1 ++ " = \"" ++ toml_escape kv.2 ++ "\""

/-- `build_pep621_toml` from the source, producing the output line list and
the final warning list.  The `optional-dependencies` loop is rendered with
its only possible key, `dev` (the source populates `optional_deps` solely
from the `dev` group). -/
def build_pep621_lines (cwd home : String) (poetry : Poetry) (build_system : BuildSystem)
    (warnings : List String) : Option (List String × List String) :=
  match poetry_deps_to_pep621 cwd home poetry.dependencies with
  | none => none
  | some (dep_list, w1) =>
    match poetry_deps_to_pep621 cwd home (dev_dependencies_table poetry) with
    | none => none
    | some (dev_deps, w2) =>
      let ws := warnings ++ w1 ++ w2
      let authors := parse_authors poetry.authors
      let bsEff := if bsTruthy build_system then build_system else defaultBuildSystem
      let lines : List String :=
        ["[project]",
         "name = \"" ++ toml_escape (poetry.name.getD "unknown-package") ++ "\"",
         "version = \"" ++ toml_escape (poetry.version.getD "0.1.0") ++ "\""]
        ++ (if truthyS poetry.description then
              ["description = \"" ++ toml_escape (poetry.description.getD "") ++ "\""] else [])
        ++ (if truthyS poetry.readme then
              ["readme = \"" ++ toml_escape (poetry.readme.getD "") ++ "\""] else [])
        ++ (if authors = [] then [] else ["authors = ["] ++ authors.map author_line ++ ["]"])
        ++ (if truthyS poetry.license then
              ["license = \x7b text = \"" ++ toml_escape (poetry.license.getD "") ++ "\" \x7d"]
            else [])
        ++ (if urls_pairs poetry = [] then []
            else ["[project.urls]"] ++ (urls_pairs poetry).map kv_line)
        ++ (if dep_list = [] then []
            else ["", "dependencies = " ++ dump_toml_array_str dep_list 2])
        ++ (if dev_deps = [] then []
            else ["", "[project.optional-dependencies]",
                  "dev = " ++ dump_toml_array_str dev_deps 2])
        ++ (if poetry.scripts = [] then []
            else ["", "[project.scripts]"] ++ poetry.scripts.map kv_line)
        ++ build_system_lines bsEff
        ++ warnings_lines ws
      some (lines, ws)

/-- `build_pep621_toml` from the source: the joined text plus final warnings. -/
def build_pep621_toml (cwd home : String) (poetry : Poetry) (build_system : BuildSystem)
    (warnings : List String) : Option (String × List String) :=
  (build_pep621_lines cwd home poetry build_system warnings).map
    (fun r => (joinSep "\n" r.1 ++ "\n", r.2))

/-- The group mapping restricted to its `dev` entry. -/
def dev_only_group (g : List (String × PoetryGroup)) : List (String × PoetryGroup) :=
  match pyGet g "dev" with
  | some t => [("dev", t)]
  | none => []

/-! ## Theorems -/

/-! ## String and digit lemmas -/

theorem strMk_data (s : String) : String.mk s.data = s := rfl

theorem data_strMk (l : List Char) : (String.mk l).data = l := rfl

theorem digitChar10_isDigit (d : Nat) : (digitChar10 d).isDigit = true := by
  rcases d with _ | _ | _ | _ | _ | _ | _ | _ | _ | d <;> rfl

theorem charVal_digitChar10 {d : Nat} (h : d < 10) : charVal (digitChar10 d) = d := by
  rcases d with _ | _ | _ | _ | _ | _ | _ | _ | _ | _ | d <;> first | rfl | omega

theorem digitChar10_ne_dot (d : Nat) : digitChar10 d ≠ '.' := by
  have h := digitChar10_isDigit d
  intro e
  rw [e] at h
  exact absurd h (by decide)

theorem digitChar10_ne_dash (d : Nat) : digitChar10 d ≠ '-' := by
  have h := digitChar10_isDigit d
  intro e
  rw [e] at h
  exact absurd h (by decide)

theorem natToCharsAux_mem {fuel n : Nat} {c : Char} (h : c ∈ natToCharsAux fuel n) :
    ∃ d, d < 10 ∧ c = digitChar10 d := by
  induction fuel generalizing n with
  | zero => simp [natToCharsAux] at h
  | succ fuel ih =>
    rw [natToCharsAux] at h
    split at h
    · simp at h
    · rcases List.mem_append.1 h with h2 | h2
      · exact ih h2
      · simp only [List.mem_singleton] at h2
        exact ⟨n % 10, Nat.mod_lt _ (by norm_num), h2⟩

theorem natToChars_mem {n : Nat} {c : Char} (h : c ∈ natToChars n) :
    ∃ d, d < 10 ∧ c = digitChar10 d := by
  rw [natToChars] at h
  split at h
  · simp only [List.mem_singleton] at h
    exact ⟨0, by norm_num, h⟩
  · exact natToCharsAux_mem h

theorem natToChars_ne_nil (n : Nat) : natToChars n ≠ [] := by
  rw [natToChars]
  split
  · simp
  · rw [natToCharsAux]
    simp only [if_neg (by assumption)]
    simp

theorem dot_not_mem_natToChars (n : Nat) : '.' ∉ natToChars n := by
  intro h
  obtain ⟨d, _, hc⟩ := natToChars_mem h
  exact digitChar10_ne_dot d hc.symm

theorem foldl_digits_shift (xs : List Char) (acc : Nat) :
    xs.foldl (fun a c => 10 * a + charVal c) acc
      = acc * 10 ^ xs.length + xs.foldl (fun a c => 10 * a + charVal c) 0 := by
  induction xs generalizing acc with
  | nil => simp
  | cons c xs ih =>
    simp only [List.foldl_cons, List.length_cons]
    rw [ih (10 * acc + charVal c), ih (10 * 0 + charVal c)]
    ring

theorem natToCharsAux_val {fuel n : Nat} (h : n ≤ fuel) :
    (natToCharsAux fuel n).foldl (fun a c => 10 * a + charVal c) 0 = n := by
  induction fuel generalizing n with
  | zero =>
    have : n = 0 := by omega
    subst this
    rfl
  | succ fuel ih =>
    rw [natToCharsAux]
    split
    · subst ‹n = 0›; rfl
    · rw [List.foldl_append, foldl_digits_shift]
      have hdiv : n / 10 ≤ fuel := by omega
      rw [ih hdiv]
      simp only [List.foldl_cons, List.foldl_nil, List.length_singleton]
      rw [charVal_digitChar10 (Nat.mod_lt _ (by norm_num))]
      omega

theorem parseDigits?_natToChars (n : Nat) : parseDigits? (natToChars n) = some n := by
  rw [parseDigits?]
  rw [if_neg (natToChars_ne_nil n)]
  have hdig : (natToChars n).all Char.isDigit = true := by
    rw [List.all_eq_true]
    intro c hc
    obtain ⟨d, _, rfl⟩ := natToChars_mem hc
    exact digitChar10_isDigit d
  rw [if_pos hdig]
  rw [natToChars]
  split
  · subst ‹n = 0›; rfl
  · rw [natToCharsAux_val (Nat.le_succ n)]

theorem pyInt?_natToStr (n : Nat) : pyInt? (natToStr n) = some (n : Int) := by
  rw [pyInt?, natToStr, pyIntChars?, data_strMk]
  have hhead : (natToChars n).head? ≠ some '-' := by
    rcases hch : natToChars n with _ | ⟨c, rest⟩
    · exact absurd hch (natToChars_ne_nil n)
    · intro hc
      have hc2 : c = '-' := by simpa using hc
      obtain ⟨d, _, hcd⟩ := natToChars_mem
        (show c ∈ natToChars n by rw [hch]; exact List.mem_cons_self c rest)
      exact digitChar10_ne_dash d (hcd.symm.trans hc2)
  rw [if_neg hhead, parseDigits?_natToChars]
  rfl

theorem intToStr_natCast (n : Nat) : intToStr (n : Int) = natToStr n := by
  rw [intToStr, if_neg (by omega : ¬((n : Int) < 0))]
  norm_num

theorem intToStr_natCast_add_one (n : Nat) : intToStr ((n : Int) + 1) = natToStr (n + 1) := by
  have h : ((n : Int) + 1) = ((n + 1 : Nat) : Int) := by push_cast; ring
  rw [h, intToStr_natCast]

theorem splitOnChar_of_not_mem {c : Char} {p : List Char} (h : c ∉ p) :
    splitOnChar c p = [p] := by
  induction p with
  | nil => rfl
  | cons x xs ih =>
    have hx : ¬(x = c) := fun e => h (e ▸ List.mem_cons_self x xs)
    rw [splitOnChar, if_neg hx, ih (fun hm => h (List.mem_cons_of_mem _ hm))]

theorem splitOnChar_append {c : Char} {p rest : List Char} (h : c ∉ p) :
    splitOnChar c (p ++ c :: rest) = p :: splitOnChar c rest := by
  induction p with
  | nil => simp [splitOnChar]
  | cons x xs ih =>
    have hx : ¬(x = c) := fun e => h (e ▸ List.mem_cons_self x xs)
    rw [List.cons_append, splitOnChar, if_neg hx,
      ih (fun hm => h (List.mem_cons_of_mem _ hm))]

theorem pySplit_joinSep {c : Char} (parts : List String) (hne : parts ≠ [])
    (hfree : ∀ p ∈ parts, c ∉ p.data) :
    pySplit (joinSep (String.mk [c]) parts) c = parts := by
  induction parts with
  | nil => exact absurd rfl hne
  | cons x xs ih =>
    cases xs with
    | nil =>
      rw [joinSep, pySplit,
        splitOnChar_of_not_mem (hfree x (List.mem_cons_self x []))]
      simp [strMk_data]
    | cons y t =>
      rw [joinSep, pySplit, String.data_append, String.data_append, data_strMk,
        List.append_assoc, List.singleton_append,
        splitOnChar_append (hfree x (List.mem_cons_self x (y :: t)))]
      simp only [List.map_cons, strMk_data]
      have := ih (by simp) (fun p hp => hfree p (List.mem_cons_of_mem _ hp))
      rw [pySplit] at this
      rw [this]

theorem mapM_pyInt_natToStr (ps : List Nat) :
    (ps.map natToStr).mapM pyInt? = some (ps.map (fun n : Nat => (n : Int))) := by
  induction ps with
  | nil => rfl
  | cons a t ih =>
    rw [List.map_cons, List.mapM_cons, pyInt?_natToStr, ih, List.map_cons]
    rfl

theorem data_natToStr (n : Nat) : (natToStr n).data = natToChars n := rfl

theorem natToChars_zero : natToChars 0 = ['0'] := rfl

theorem intToStr_zero : intToStr 0 = "0" := rfl

theorem showVer_one (x : Nat) : showVer [x] = natToStr x := rfl

theorem showVer_two (x y : Nat) : showVer [x, y] = natToStr x ++ "." ++ natToStr y := rfl

theorem showVer_three (x y z : Nat) :
    showVer [x, y, z] = natToStr x ++ "." ++ (natToStr y ++ "." ++ natToStr z) := rfl

theorem dataLit_ge : (">=" : String).data = ['>', '='] := rfl

theorem dataLit_dot : ("." : String).data = ['.'] := rfl

theorem dataLit_commalt : (",<" : String).data = [',', '<'] := rfl

theorem dataLit_dot00 : (".0.0" : String).data = ['.', '0', '.', '0'] := rfl

theorem dataLit_zerodot : ("0." : String).data = ['0', '.'] := rfl

theorem dataLit_dotzero : (".0" : String).data = ['.', '0'] := rfl

theorem dataLit_zerozerodot : ("0.0." : String).data = ['0', '.', '0', '.'] := rfl

theorem dataLit_zero : ("0" : String).data = ['0'] := rfl

theorem dataLit_dotzerocommalt : (".0,<" : String).data = ['.', '0', ',', '<'] := rfl

theorem getD_replicate_intzero (r n : Nat) : (List.replicate r (0 : Int)).getD n 0 = 0 := by
  induction r generalizing n with
  | zero => simp [List.getD]
  | succ r ih =>
    cases n with
    | zero => simp [List.replicate_succ]
    | succ n =>
      simp only [List.replicate_succ, List.getD_cons_succ]
      exact ih n

/-! ## Claim C1 -/

/-- Claim C1. For every caret constraint string `^` followed by up to three
dot-separated integer components, translation returns `>=F,<C` where `F` is
the input version zero-padded to three components and `C` bumps the leftmost
non-zero component by 1 and zeroes everything to its right (if major>0 bump
major; else if minor>0 bump minor; else bump patch); in particular
`translate("^1.2.3") = ">=1.2.3,<2.0.0"`, `translate("^0.2.3") = ">=0.2.3,<0.3.0"`,
`translate("^0.0.3") = ">=0.0.3,<0.0.4"`. -/
theorem claim_C1_caret_rule :
    (∀ ps : List Nat, ps ≠ [] → ps.length ≤ 3 →
      caret_to_range ("^" ++ showVer ps)
        = some (">=" ++ showVer (padTo3 ps) ++ ",<" ++ showVer (bumpLeftmostNonzero (padTo3 ps))))
    ∧ caret_to_range "^1.2.3" = some ">=1.2.3,<2.0.0"
    ∧ caret_to_range "^0.2.3" = some ">=0.2.3,<0.3.0"
    ∧ caret_to_range "^0.0.3" = some ">=0.0.3,<0.0.4" := by
  refine ⟨?_, by decide, by decide, by decide⟩
  intro ps hne hlen
  have hdata : ("^" ++ showVer ps).data = '^' :: (showVer ps).data := by
    rw [String.data_append]
    rfl
  have hstart : pyStartsWith ("^" ++ showVer ps) '^' = true := by
    rw [pyStartsWith, hdata]
    rfl
  have hdrop : pyDrop1 ("^" ++ showVer ps) = showVer ps := by
    rw [pyDrop1, hdata, List.tail_cons, strMk_data]
  have hsplit : pySplit (showVer ps) '.' = ps.map natToStr := by
    rw [showVer, show ("." : String) = String.mk ['.'] from rfl]
    refine pySplit_joinSep (ps.map natToStr) (by simpa using hne) ?_
    intro p hp
    obtain ⟨n, hn, rfl⟩ := List.mem_map.1 hp
    exact dot_not_mem_natToChars n
  unfold caret_to_range
  rw [if_pos hstart, hdrop, hsplit, mapM_pyInt_natToStr]
  rcases ps with _ | ⟨a, _ | ⟨b, _ | ⟨c, _ | ⟨d, t⟩⟩⟩⟩
  · exact absurd rfl hne
  · by_cases ha : 0 < a
    · refine congrArg some (String.ext ?_)
      simp [padTo3, bumpLeftmostNonzero, Int.natCast_pos, ha, showVer_three,
        String.data_append, data_natToStr, natToChars_zero, intToStr_natCast,
        intToStr_natCast_add_one, intToStr_zero, List.append_assoc,
        getD_replicate_intzero, dataLit_ge, dataLit_dot, dataLit_commalt, dataLit_dot00,
        dataLit_zerodot, dataLit_dotzero, dataLit_zerozerodot, dataLit_zero]
    · have ha0 : a = 0 := by omega
      subst ha0
      decide
  · by_cases ha : 0 < a
    · refine congrArg some (String.ext ?_)
      simp [padTo3, bumpLeftmostNonzero, Int.natCast_pos, ha, showVer_three,
        String.data_append, data_natToStr, natToChars_zero, intToStr_natCast,
        intToStr_natCast_add_one, intToStr_zero, List.append_assoc,
        getD_replicate_intzero, dataLit_ge, dataLit_dot, dataLit_commalt, dataLit_dot00,
        dataLit_zerodot, dataLit_dotzero, dataLit_zerozerodot, dataLit_zero]
    · have ha0 : a = 0 := by omega
      subst ha0
      by_cases hb : 0 < b
      · refine congrArg some (String.ext ?_)
        simp [padTo3, bumpLeftmostNonzero, Int.natCast_pos, hb, showVer_three,
          String.data_append, data_natToStr, natToChars_zero, intToStr_natCast,
          intToStr_natCast_add_one, intToStr_zero, List.append_assoc,
          getD_replicate_intzero, dataLit_ge, dataLit_dot, dataLit_commalt, dataLit_dot00,
          dataLit_zerodot, dataLit_dotzero, dataLit_zerozerodot, dataLit_zero]
      · have hb0 : b = 0 := by omega
        subst hb0
        decide
  · by_cases ha : 0 < a
    · refine congrArg some (String.ext ?_)
      simp [padTo3, bumpLeftmostNonzero, Int.natCast_pos, ha, showVer_three,
        String.data_append, data_natToStr, natToChars_zero, intToStr_natCast,
        intToStr_natCast_add_one, intToStr_zero, List.append_assoc,
        getD_replicate_intzero, dataLit_ge, dataLit_dot, dataLit_commalt, dataLit_dot00,
        dataLit_zerodot, dataLit_dotzero, dataLit_zerozerodot, dataLit_zero]
    · have ha0 : a = 0 := by omega
      subst ha0
      by_cases hb : 0 < b
      · refine congrArg some (String.ext ?_)
        simp [padTo3, bumpLeftmostNonzero, Int.natCast_pos, hb, showVer_three,
          String.data_append, data_natToStr, natToChars_zero, intToStr_natCast,
          intToStr_natCast_add_one, intToStr_zero, List.append_assoc,
          getD_replicate_intzero, dataLit_ge, dataLit_dot, dataLit_commalt, dataLit_dot00,
          dataLit_zerodot, dataLit_dotzero, dataLit_zerozerodot, dataLit_zero]
      · have hb0 : b = 0 := by omega
        subst hb0
        refine congrArg some (String.ext ?_)
        simp [padTo3, bumpLeftmostNonzero, Int.natCast_pos, showVer_three,
          String.data_append, data_natToStr, natToChars_zero, intToStr_natCast,
          intToStr_natCast_add_one, intToStr_zero, List.append_assoc,
          getD_replicate_intzero, dataLit_ge, dataLit_dot, dataLit_commalt, dataLit_dot00,
          dataLit_zerodot, dataLit_dotzero, dataLit_zerozerodot, dataLit_zero]
  · simp at hlen

/-- Witness for C1: the caret rule instantiated at concrete components
`[1, 2, 3]`, with the hypotheses discharged by evaluation. -/
theorem claim_C1_caret_rule_witness :
    caret_to_range ("^" ++ showVer [1, 2, 3])
      = some (">=" ++ showVer (padTo3 [1, 2, 3]) ++ ",<"
          ++ showVer (bumpLeftmostNonzero (padTo3 [1, 2, 3]))) :=
  claim_C1_caret_rule.1 [1, 2, 3] (by decide) (by decide)

/-! ## Claim C2 -/

/-- Claim C2. For every tilde constraint string `~` followed by dot-separated
integer components, translation returns `>=floor,<ceiling` with: one
component `X` given → floor `X.0`, ceiling `(X+1).0`; two components `X.Y` →
floor `X.Y`, ceiling `X.(Y+1)`; three components `X.Y.Z` → floor `X.Y.Z`,
ceiling `X.(Y+1).0`; in particular `translate("~1") = ">=1.0,<2.0"`,
`translate("~1.2") = ">=1.2,<1.3"`, `translate("~1.2.3") = ">=1.2.3,<1.3.0"`. -/
theorem claim_C2_tilde_rule :
    (∀ ps : List Nat, 1 ≤ ps.length → ps.length ≤ 3 →
      tilde_to_range ("~" ++ showVer ps) = tildeExpected ps)
    ∧ tilde_to_range "~1" = some ">=1.0,<2.0"
    ∧ tilde_to_range "~1.2" = some ">=1.2,<1.3"
    ∧ tilde_to_range "~1.2.3" = some ">=1.2.3,<1.3.0" := by
  refine ⟨?_, by decide, by decide, by decide⟩
  intro ps hge hlen
  have hne : ps ≠ [] := by
    intro h
    rw [h] at hge
    simp at hge
  have hdata : ("~" ++ showVer ps).data = '~' :: (showVer ps).data := by
    rw [String.data_append]
    rfl
  have hstart : pyStartsWith ("~" ++ showVer ps) '~' = true := by
    rw [pyStartsWith, hdata]
    rfl
  have hdrop : pyDrop1 ("~" ++ showVer ps) = showVer ps := by
    rw [pyDrop1, hdata, List.tail_cons, strMk_data]
  have hsplit : pySplit (showVer ps) '.' = ps.map natToStr := by
    rw [showVer, show ("." : String) = String.mk ['.'] from rfl]
    refine pySplit_joinSep (ps.map natToStr) (by simpa using hne) ?_
    intro p hp
    obtain ⟨n, hn, rfl⟩ := List.mem_map.1 hp
    exact dot_not_mem_natToChars n
  unfold tilde_to_range
  rw [if_pos hstart, hdrop, hsplit]
  rcases ps with _ | ⟨x, _ | ⟨y, _ | ⟨z, _ | ⟨w, t⟩⟩⟩⟩
  · exact absurd rfl hne
  · simp [pyInt?_natToStr, intToStr_natCast, intToStr_natCast_add_one, tildeExpected]
  · simp [pyInt?_natToStr, intToStr_natCast, intToStr_natCast_add_one, tildeExpected]
  · simp [pyInt?_natToStr, intToStr_natCast, intToStr_natCast_add_one, tildeExpected]
  · simp at hlen

/-- Witness for C2: the tilde rule instantiated at concrete components
`[1, 2]`, with the hypotheses discharged by evaluation. -/
theorem claim_C2_tilde_rule_witness :
    tilde_to_range ("~" ++ showVer [1, 2]) = tildeExpected [1, 2] :=
  claim_C2_tilde_rule.1 [1, 2] (by decide) (by decide)

/-! ## Claim C3 -/

/-- Claim C3, counterexample. The claim "any string that does not start with `^`
or `~` is returned unchanged" fails: `" ==2.0"` starts with neither, yet the
translator strips it and returns `"==2.0"`, not the input. -/
theorem claim_C3_counterexample :
    pyStartsWith " ==2.0" '^' = false
    ∧ pyStartsWith " ==2.0" '~' = false
    ∧ normalize_version_constraint " ==2.0" = some "==2.0"
    ∧ normalize_version_constraint " ==2.0" ≠ some " ==2.0" :=
  ⟨by decide, by decide, by decide, by decide⟩

/-- Claim C3, amended. For every string that, after stripping surrounding
whitespace, does not start with `^` or `~`, translation returns the stripped
string (so it is the identity exactly on already-stripped inputs). -/
theorem claim_C3_passthrough :
    ∀ ver : String, pyStartsWith (pyStrip ver) '^' = false →
      pyStartsWith (pyStrip ver) '~' = false →
      normalize_version_constraint ver = some (pyStrip ver) := by
  intro ver h1 h2
  unfold normalize_version_constraint
  simp [h1, h2]

/-- Witness for the amended C3 at the concrete input `"==2.0"`. -/
theorem claim_C3_passthrough_witness :
    normalize_version_constraint "==2.0" = some (pyStrip "==2.0") :=
  claim_C3_passthrough "==2.0" (by decide) (by decide)

/-! ## Claim C7 -/

/-- Claim C7. For every dependency table entry with a `path` key and
`develop = true`, the builder emits exactly one advisory warning (the entry
appends exactly the singleton list), the warning text mentions the
dependency's name, and the dependency is still rendered as the normal
non-editable `name @ file://<absolute-path>` specifier (the call succeeds,
so completion is not blocked). -/
theorem claim_C7_editable_warning :
    ∀ (cwd home name p : String) (g rv tg br v : Option String)
      (e : Option (List String)) (m : Option String),
      dep_table_to_pep508 cwd home name
          (DepVal.table { path := some p, develop := true, git := g, rev := rv, tag := tg,
                          branch := br, version := v, extras := e, markers := m })
        = some (name ++ " @ file://" ++ pyAbsPath cwd (pyExpanduser home p),
                [editable_warning name (pyExpanduser home p)])
      ∧ ∃ l r, (editable_warning name (pyExpanduser home p)).data
          = l ++ name.data ++ r := by
  intro cwd home name p g rv tg br v e m
  constructor
  · rfl
  · refine ⟨("[editable-warning] " : String).data,
      (" uses develop=true (editable). PEP 621 cannot encode this. Use `pip install -e " : String).data
        ++ (pyExpanduser home p).data
        ++ ("` inside the venv for live edits." : String).data, ?_⟩
    simp [editable_warning, String.data_append, List.append_assoc]

/-! ## Claim C9 -/

/-- Claim C9, counterexample. The claim says the first *present* key of
`revision > tag > branch` wins.  With `rev` present but empty and `tag`
present, the code skips the falsy `rev` and uses the tag: the result is
`"n @ git+u@t"`, not the `"n @ git+u@"` the claim prescribes for
`ref = ""`. -/
theorem claim_C9_counterexample :
    dep_table_to_pep508 "" "" "n"
        (DepVal.table { git := some "u", rev := some "", tag := some "t" })
      = some ("n @ git+u@t", [])
    ∧ ("n @ git+u@t" : String) ≠ "n @ git+u@" :=
  ⟨by decide, by decide⟩

/-- Claim C9, amended. For every version-control dependency table, the ref is
the first key of `rev > tag > branch` with a *non-empty* value (`None` when
none has one); the rendered specifier is `name @ git+<url>@ref`, the `@ref`
part omitted entirely when no non-empty ref exists. -/
theorem claim_C9_git_ref :
    ∀ (cwd home name url : String) (d : Bool) (rv tg br v : Option String)
      (e : Option (List String)) (m : Option String),
      dep_table_to_pep508 cwd home name
          (DepVal.table { path := none, develop := d, git := some url, rev := rv, tag := tg,
                          branch := br, version := v, extras := e, markers := m })
        = some (match firstTruthy [rv, tg, br] with
                | some r => name ++ " @ git+" ++ url ++ "@" ++ r
                | none => name ++ " @ git+" ++ url, []) := by
  intro cwd home name url d rv tg br v e m
  rcases rv with _ | rv <;> rcases tg with _ | tg <;> rcases br with _ | br <;>
    simp [dep_table_to_pep508, pyOrS, truthyS, firstTruthy] <;> split_ifs <;> simp_all

/-! ### Order lemmas for the case-insensitive sort -/

theorem lexLe_total (a b : List Char) : lexLe a b = true ∨ lexLe b a = true := by
  induction a generalizing b with
  | nil => exact Or.inl rfl
  | cons x xs ih =>
    cases b with
    | nil => exact Or.inr rfl
    | cons y ys =>
      by_cases hxy : x = y
      · subst hxy
        rcases ih ys with h | h
        · exact Or.inl (by simp [lexLe, h])
        · exact Or.inr (by simp [lexLe, h])
      · rcases lt_or_gt_of_ne hxy with h | h
        · exact Or.inl (by simp [lexLe, hxy, h])
        · exact Or.inr (by simp [lexLe, Ne.symm hxy, h])

theorem lexLe_trans {a b c : List Char} (h1 : lexLe a b = true) (h2 : lexLe b c = true) :
    lexLe a c = true := by
  induction a generalizing b c with
  | nil => rfl
  | cons x xs ih =>
    cases b with
    | nil => simp [lexLe] at h1
    | cons y ys =>
      cases c with
      | nil => simp [lexLe] at h2
      | cons z zs =>
        by_cases hxy : x = y <;> by_cases hyz : y = z
        · subst hxy; subst hyz
          simp only [lexLe, if_pos rfl] at h1 h2 ⊢
          exact ih h1 h2
        · subst hxy
          simp only [lexLe, if_pos rfl] at h1
          simp only [lexLe, if_neg hyz] at h2 ⊢
          exact h2
        · subst hyz
          simp only [lexLe, if_neg hxy] at h1
          simp only [lexLe, if_neg hxy]
          exact h1
        · simp only [lexLe, if_neg hxy] at h1
          simp only [lexLe, if_neg hyz] at h2
          have hxz : x < z := lt_trans (of_decide_eq_true h1) (of_decide_eq_true h2)
          have hne : ¬(x = z) := ne_of_lt hxz
          simp [lexLe, hne, hxz]

theorem lexLe_antisymm {a b : List Char} (h1 : lexLe a b = true) (h2 : lexLe b a = true) :
    a = b := by
  induction a generalizing b with
  | nil =>
    cases b with
    | nil => rfl
    | cons y ys => simp [lexLe] at h2
  | cons x xs ih =>
    cases b with
    | nil => simp [lexLe] at h1
    | cons y ys =>
      by_cases hxy : x = y
      · subst hxy
        simp only [lexLe, if_pos rfl] at h1 h2
        rw [ih h1 h2]
      · simp only [lexLe, if_neg hxy] at h1
        simp only [lexLe, if_neg (Ne.symm hxy)] at h2
        exact absurd (of_decide_eq_true h2) (not_lt_of_lt (of_decide_eq_true h1))

theorem pySortedByLower_sorted (l : List String) :
    List.Sorted (fun a b => lexLe (pyLower a).data (pyLower b).data = true)
      (pySortedByLower l) := by
  haveI : IsTotal String (fun a b => lexLe (pyLower a).data (pyLower b).data = true) :=
    ⟨fun a b => lexLe_total _ _⟩
  haveI : IsTrans String (fun a b => lexLe (pyLower a).data (pyLower b).data = true) :=
    ⟨fun _ _ _ => lexLe_trans⟩
  exact List.sorted_insertionSort _ l

theorem pySortedByLower_perm (l : List String) : (pySortedByLower l).Perm l :=
  List.perm_insertionSort _ l

/-- `deps_render` renders exactly the non-`python` entries, in order. -/
theorem deps_render_out {cwd home : String} :
    ∀ {deps : List (String × DepVal)} {out ws : List String},
      deps_render cwd home deps = some (out, ws) →
      out = (deps.filter keepDep).map (fun nv => (renderDep cwd home nv).getD "") := by
  intro deps
  induction deps with
  | nil =>
    intro out ws h
    simp [deps_render] at h
    simp [h.1]
  | cons nv rest ih =>
    obtain ⟨n, v⟩ := nv
    intro out ws h
    by_cases hn : pyLower n = "python"
    · have hk : keepDep (n, v) = false := by simp [keepDep, hn]
      rw [deps_render] at h
      rw [if_pos hn] at h
      simp [List.filter_cons, hk]
      exact ih h
    · have hk : keepDep (n, v) = true := by simp [keepDep, hn]
      rw [deps_render, if_neg hn] at h
      rcases hd : dep_table_to_pep508 cwd home n v with _ | ⟨s, w⟩ <;> rw [hd] at h
      · exact absurd h (by simp)
      · rcases hr : deps_render cwd home rest with _ | ⟨o, ws2⟩ <;> rw [hr] at h
        · exact absurd h (by simp)
        · simp only [Option.some.injEq, Prod.mk.injEq] at h
          obtain ⟨h1, h2⟩ := h
          subst h1
          simp [List.filter_cons, hk, renderDep, hd]
          exact ih hr

/-! ## Claim C8 -/

/-- Claim C8, counterexample. Output order is *not* invariant under permutation
of the dependency mapping when two rendered specifiers collide
case-insensitively: the stable sort keeps encounter order for ties, so the
keys `"A"`/`"a"` produce different output lists for the two input orders. -/
theorem claim_C8_counterexample :
    ([("A", DepVal.str "1"), ("a", DepVal.str "1")] : List (String × DepVal)).Perm
        [("a", DepVal.str "1"), ("A", DepVal.str "1")]
    ∧ poetry_deps_to_pep621 "" "" [("A", DepVal.str "1"), ("a", DepVal.str "1")]
        = some (["A 1", "a 1"], [])
    ∧ poetry_deps_to_pep621 "" "" [("a", DepVal.str "1"), ("A", DepVal.str "1")]
        = some (["a 1", "A 1"], [])
    ∧ (["A 1", "a 1"] : List String) ≠ ["a 1", "A 1"] :=
  ⟨by decide, by decide, by decide, by decide⟩

/-- Claim C8, amended. The builder's output is always sorted case-insensitively
by rendered specifier, and the output list is invariant under input-order
permutation whenever no two rendered specifiers are case-insensitively equal
(with ties, the stable sort preserves encounter order instead). -/
theorem claim_C8_ordering :
    (∀ (cwd home : String) (deps : List (String × DepVal)) (out ws : List String),
      poetry_deps_to_pep621 cwd home deps = some (out, ws) →
      List.Sorted (fun a b => lexLe (pyLower a).data (pyLower b).data = true) out)
    ∧ (∀ (cwd home : String) (d1 d2 : List (String × DepVal)) (out1 ws1 out2 ws2 : List String),
      d1.Perm d2 →
      poetry_deps_to_pep621 cwd home d1 = some (out1, ws1) →
      poetry_deps_to_pep621 cwd home d2 = some (out2, ws2) →
      (out1.map pyLower).Nodup →
      out1 = out2) := by
  constructor
  · intro cwd home deps out ws h
    rw [poetry_deps_to_pep621] at h
    rcases hr : deps_render cwd home deps with _ | ⟨o, w⟩ <;> rw [hr] at h
    · exact absurd h (by simp)
    · have h1 : pySortedByLower o = out := by
        simpa using congrArg (fun r => r.map Prod.fst) h
      exact h1 ▸ pySortedByLower_sorted o
  · intro cwd home d1 d2 out1 ws1 out2 ws2 hp e1 e2 hnd
    rw [poetry_deps_to_pep621] at e1 e2
    rcases hr1 : deps_render cwd home d1 with _ | ⟨o1, w1⟩ <;> rw [hr1] at e1
    · exact absurd e1 (by simp)
    rcases hr2 : deps_render cwd home d2 with _ | ⟨o2, w2⟩ <;> rw [hr2] at e2
    · exact absurd e2 (by simp)
    have ho1 : pySortedByLower o1 = out1 := by
      simpa using congrArg (fun r => r.map Prod.fst) e1
    have ho2 : pySortedByLower o2 = out2 := by
      simpa using congrArg (fun r => r.map Prod.fst) e2
    have ho : o1.Perm o2 := by
      rw [deps_render_out hr1, deps_render_out hr2]
      exact (hp.filter keepDep).map _
    have hperm : out1.Perm out2 := by
      rw [← ho1, ← ho2]
      exact ((pySortedByLower_perm o1).trans ho).trans (pySortedByLower_perm o2).symm
    have hs1 : List.Sorted (fun a b => lexLe (pyLower a).data (pyLower b).data = true) out1 :=
      ho1 ▸ pySortedByLower_sorted o1
    have hs2 : List.Sorted (fun a b => lexLe (pyLower a).data (pyLower b).data = true) out2 :=
      ho2 ▸ pySortedByLower_sorted o2
    have hnd2 : (out2.map pyLower).Nodup := ((hperm.map pyLower).nodup_iff).mp hnd
    have hpw1 : out1.Pairwise (fun a b => pyLower a ≠ pyLower b) :=
      (List.pairwise_map.mp hnd)
    have hpw2 : out2.Pairwise (fun a b => pyLower a ≠ pyLower b) :=
      (List.pairwise_map.mp hnd2)
    have hs1' : out1.Pairwise (fun a b : String =>
        (lexLe (pyLower a).data (pyLower b).data = true ∧ pyLower a ≠ pyLower b) ∨ a = b) :=
      (hs1.and hpw1).imp (fun h => Or.inl h)
    have hs2' : out2.Pairwise (fun a b : String =>
        (lexLe (pyLower a).data (pyLower b).data = true ∧ pyLower a ≠ pyLower b) ∨ a = b) :=
      (hs2.and hpw2).imp (fun h => Or.inl h)
    haveI : IsAntisymm String (fun a b : String =>
        (lexLe (pyLower a).data (pyLower b).data = true ∧ pyLower a ≠ pyLower b) ∨ a = b) := by
      constructor
      intro a b h1 h2
      rcases h1 with ⟨hle1, hne1⟩ | rfl
      · rcases h2 with ⟨hle2, hne2⟩ | heq
        · exact absurd (String.ext (lexLe_antisymm hle1 hle2)) hne1
        · exact heq.symm
      · rfl
    exact List.eq_of_perm_of_sorted hperm hs1' hs2'

/-- Witness for the amended C8: sortedness and permutation invariance at
concrete tie-free inputs, hypotheses discharged by evaluation. -/
theorem claim_C8_ordering_witness :
    List.Sorted (fun a b => lexLe (pyLower a).data (pyLower b).data = true)
      (["A 1", "b 1"] : List String)
    ∧ (["a 1", "b 1"] : List String) = ["a 1", "b 1"] :=
  ⟨claim_C8_ordering.1 "" "" [("b", DepVal.str "1"), ("A", DepVal.str "1")]
      ["A 1", "b 1"] [] (by decide),
   claim_C8_ordering.2 "" "" [("b", DepVal.str "1"), ("a", DepVal.str "1")]
      [("a", DepVal.str "1"), ("b", DepVal.str "1")] ["a 1", "b 1"] [] ["a 1", "b 1"] []
      (by decide) (by decide) (by decide) (by decide)⟩

theorem pyGet_dev_only (g : List (String × PoetryGroup)) :
    pyGet (dev_only_group g) "dev" = pyGet g "dev" := by
  rw [dev_only_group]
  cases h : pyGet g "dev" with
  | none => rfl
  | some t => rfl

/-! ## Claim C4 -/

/-- Claim C4, counterexample. A source document whose dependency groups contain
one group named `test` (with one dependency) produces *no*
`optional-dependencies` subtable at all: the serializer only ever consults
the `dev` group, so the claim "one subtable per group encountered" fails. -/
theorem claim_C4_counterexample :
    build_pep621_lines "" ""
        { group := [("test", { dependencies := [("a", DepVal.str "1.0")] })] } {} []
      = some (["[project]", "name = \"unknown-package\"", "version = \"0.1.0\"",
               "", "[build-system]", "requires = [\"poetry-core>=1.9.0\"]",
               "build-backend = \"poetry.core.masonry.api\""], [])
    ∧ "[project.optional-dependencies]"
        ∉ ["[project]", "name = \"unknown-package\"", "version = \"0.1.0\"",
           "", "[build-system]", "requires = [\"poetry-core>=1.9.0\"]",
           "build-backend = \"poetry.core.masonry.api\""] :=
  ⟨by decide, by decide⟩

/-- Claim C4, amended. The serializer reads only the `dev` dependency group:
the output is unchanged if every other group is removed; and whenever the
`dev` group renders to a non-empty dependency list, the output contains the
`[project.optional-dependencies]` header together with the `dev = [...]`
subtable line. -/
theorem claim_C4_dev_group_only :
    (∀ (cwd home : String) (p : Poetry) (bs : BuildSystem) (w : List String),
      build_pep621_lines cwd home p bs w
        = build_pep621_lines cwd home { p with group := dev_only_group p.group } bs w)
    ∧ (∀ (cwd home : String) (p : Poetry) (bs : BuildSystem) (w ls ws ds dw : List String),
      build_pep621_lines cwd home p bs w = some (ls, ws) →
      poetry_deps_to_pep621 cwd home (dev_dependencies_table p) = some (ds, dw) →
      ds ≠ [] →
      "[project.optional-dependencies]" ∈ ls
        ∧ ("dev = " ++ dump_toml_array_str ds 2) ∈ ls) := by
  constructor
  · intro cwd home p bs w
    have hdev : dev_dependencies_table { p with group := dev_only_group p.group }
        = dev_dependencies_table p := by
      rw [dev_dependencies_table, dev_dependencies_table]
      show (match pyGet (dev_only_group p.group) "dev" with
            | some g => g.dependencies
            | none => ([] : List (String × DepVal)))
          = match pyGet p.group "dev" with
            | some g => g.dependencies
            | none => ([] : List (String × DepVal))
      rw [pyGet_dev_only p.group]
    unfold build_pep621_lines
    rw [hdev]
    rfl
  · intro cwd home p bs w ls ws ds dw h hdev hne
    rw [build_pep621_lines] at h
    rcases h1 : poetry_deps_to_pep621 cwd home p.dependencies with _ | ⟨dl, w1⟩ <;>
      rw [h1] at h
    · exact absurd h (by simp)
    rw [hdev] at h
    simp only [Option.some.injEq, Prod.mk.injEq] at h
    obtain ⟨hls, -⟩ := h
    subst hls
    constructor
    · simp [hne]
    · simp [hne]

/-- Witness for the amended C4: a concrete document with a non-empty `dev`
group, hypotheses discharged by evaluation. -/
theorem claim_C4_dev_group_only_witness :
    "[project.optional-dependencies]"
        ∈ (["[project]", "name = \"unknown-package\"", "version = \"0.1.0\"", "",
            "[project.optional-dependencies]", "dev = [\n  \"b 1\"\n]", "",
            "[build-system]", "requires = [\"poetry-core>=1.9.0\"]",
            "build-backend = \"poetry.core.masonry.api\""] : List String)
      ∧ ("dev = " ++ dump_toml_array_str ["b 1"] 2)
        ∈ (["[project]", "name = \"unknown-package\"", "version = \"0.1.0\"", "",
            "[project.optional-dependencies]", "dev = [\n  \"b 1\"\n]", "",
            "[build-system]", "requires = [\"poetry-core>=1.9.0\"]",
            "build-backend = \"poetry.core.masonry.api\""] : List String) :=
  claim_C4_dev_group_only.2 "" ""
    { group := [("dev", { dependencies := [("b", DepVal.str "1")] })] } {} []
    ["[project]", "name = \"unknown-package\"", "version = \"0.1.0\"", "",
     "[project.optional-dependencies]", "dev = [\n  \"b 1\"\n]", "",
     "[build-system]", "requires = [\"poetry-core>=1.9.0\"]",
     "build-backend = \"poetry.core.masonry.api\""] [] ["b 1"] []
    (by decide) (by decide) (by decide)

/-! ## Claim C6 -/

/-- Claim C6, counterexample. An explicit build-system table carrying only a
`requires` key is *not* passed through unchanged: the output additionally
contains a `build-backend` line filled with the default backend, i.e. a key
is added. -/
theorem claim_C6_counterexample :
    ({ requires := some ["setuptools"] } : BuildSystem).backend = none
    ∧ build_pep621_lines "" "" {} { requires := some ["setuptools"] } []
        = some (["[project]", "name = \"unknown-package\"", "version = \"0.1.0\"",
                 "", "[build-system]", "requires = [\"setuptools\"]",
                 "build-backend = \"poetry.core.masonry.api\""], [])
    ∧ "build-backend = \"poetry.core.masonry.api\""
        ∈ ["[project]", "name = \"unknown-package\"", "version = \"0.1.0\"",
           "", "[build-system]", "requires = [\"setuptools\"]",
           "build-backend = \"poetry.core.masonry.api\""] :=
  ⟨rfl, by decide, by decide⟩

/-- Claim C6, amended. Every serialized document ends with a build-system
block holding exactly a `requires` line and a `build-backend` line (plus the
trailing warnings block): when the source table is missing or empty the full
default is used, otherwise each of the two keys is taken from the source
when present and filled with its per-key default when absent; other source
keys are not carried over. -/
theorem claim_C6_build_system :
    ∀ (cwd home : String) (p : Poetry) (bs : BuildSystem) (w ls ws : List String),
      build_pep621_lines cwd home p bs w = some (ls, ws) →
      ∃ pre, ls = pre ++ (build_system_lines (if bsTruthy bs then bs else defaultBuildSystem)
          ++ warnings_lines ws) := by
  intro cwd home p bs w ls ws h
  rw [build_pep621_lines] at h
  rcases h1 : poetry_deps_to_pep621 cwd home p.dependencies with _ | ⟨dl, w1⟩ <;> rw [h1] at h
  · exact absurd h (by simp)
  rcases h2 : poetry_deps_to_pep621 cwd home (dev_dependencies_table p) with _ | ⟨dd, w2⟩ <;>
    rw [h2] at h
  · exact absurd h (by simp)
  simp only [Option.some.injEq, Prod.mk.injEq] at h
  obtain ⟨hls, hws⟩ := h
  subst hws
  subst hls
  exact ⟨_, List.append_assoc _ _ _⟩

/-- Witness for the amended C6 at a concrete build-system table with only a
`requires` key. -/
theorem claim_C6_build_system_witness :
    ∃ pre, (["[project]", "name = \"unknown-package\"", "version = \"0.1.0\"",
             "", "[build-system]", "requires = [\"setuptools\"]",
             "build-backend = \"poetry.core.masonry.api\""] : List String)
      = pre ++ (build_system_lines
            (if bsTruthy { requires := some ["setuptools"] } then
              ({ requires := some ["setuptools"] } : BuildSystem)
             else defaultBuildSystem)
          ++ warnings_lines []) :=
  claim_C6_build_system "" "" {} { requires := some ["setuptools"] } []
    ["[project]", "name = \"unknown-package\"", "version = \"0.1.0\"",
     "", "[build-system]", "requires = [\"setuptools\"]",
     "build-backend = \"poetry.core.masonry.api\""] [] (by decide)

/-! ## Claim C10 -/

/-- Claim C10. For every source metadata table that omits the `name` field or
the `version` field (each case on its own, the other field arbitrary),
serialization does not fail (given the dependency tables themselves render)
and the output contains the default `name = "unknown-package"` line when
`name` is omitted, and the default `version = "0.1.0"` line when `version`
is omitted. -/
theorem claim_C10_default_name_version :
    ∀ (cwd home : String) (p : Poetry) (bs : BuildSystem) (w : List String),
      (poetry_deps_to_pep621 cwd home p.dependencies).isSome = true →
      (poetry_deps_to_pep621 cwd home (dev_dependencies_table p)).isSome = true →
      (p.name = none →
        ∃ ls ws, build_pep621_lines cwd home p bs w = some (ls, ws)
          ∧ "name = \"unknown-package\"" ∈ ls)
      ∧ (p.version = none →
        ∃ ls ws, build_pep621_lines cwd home p bs w = some (ls, ws)
          ∧ "version = \"0.1.0\"" ∈ ls) := by
  intro cwd home p bs w h1 h2
  obtain ⟨⟨dl, w1⟩, e1⟩ := Option.isSome_iff_exists.mp h1
  obtain ⟨⟨dd, w2⟩, e2⟩ := Option.isSome_iff_exists.mp h2
  constructor
  · intro hn
    rw [build_pep621_lines, e1, e2]
    refine ⟨_, _, rfl, ?_⟩
    rw [hn]
    simp [List.mem_append, show toml_escape "unknown-package" = "unknown-package" from rfl]
  · intro hv
    rw [build_pep621_lines, e1, e2]
    refine ⟨_, _, rfl, ?_⟩
    rw [hv]
    simp [List.mem_append, show toml_escape "0.1.0" = "0.1.0" from rfl]

/-- Witness for C10 at two concrete tables, each omitting exactly one of the
two fields: one with `version` present but `name` omitted, one with `name`
present but `version` omitted. -/
theorem claim_C10_default_name_version_witness :
    (∃ ls ws, build_pep621_lines "" "" { version := some "2.0" } {} [] = some (ls, ws)
      ∧ "name = \"unknown-package\"" ∈ ls)
    ∧ (∃ ls ws, build_pep621_lines "" "" { name := some "pkg" } {} [] = some (ls, ws)
      ∧ "version = \"0.1.0\"" ∈ ls) :=
  ⟨(claim_C10_default_name_version "" "" { version := some "2.0" } {} []
      (by decide) (by decide)).1 rfl,
   (claim_C10_default_name_version "" "" { name := some "pkg" } {} []
      (by decide) (by decide)).2 rfl⟩

/-! ## Claim C5 helper lemmas -/

theorem mem_toml_escape {c : Char} {x : String} (h : c ∈ (toml_escape x).data) :
    c = '\\' ∨ c = '"' ∨ c ∈ x.data := by
  rw [toml_escape] at h
  rw [data_strMk] at h
  rw [List.mem_flatten] at h
  obtain ⟨l, hl, hc⟩ := h
  rw [List.mem_map] at hl
  obtain ⟨a, ha, rfl⟩ := hl
  by_cases h1 : a = '\\'
  · rw [if_pos h1] at hc
    simp at hc
    exact Or.inl hc
  · rw [if_neg h1] at hc
    by_cases h2 : a = '"'
    · rw [if_pos h2] at hc
      simp at hc
      rcases hc with rfl | rfl
      · exact Or.inl rfl
      · exact Or.inr (Or.inl rfl)
    · rw [if_neg h2] at hc
      simp at hc
      subst hc
      exact Or.inr (Or.inr ha)

theorem newline_not_mem_toml_escape {x : String} (h : '\n' ∉ x.data) :
    '\n' ∉ (toml_escape x).data := by
  intro hc
  rcases mem_toml_escape hc with h1 | h1 | h1
  · exact absurd h1 (by decide)
  · exact absurd h1 (by decide)
  · exact h h1

theorem getLast?_append_right {α : Type} {l1 l2 : List α} (h : l2 ≠ []) :
    (l1 ++ l2).getLast? = l2.getLast? := by
  induction l1 with
  | nil => rfl
  | cons x xs ih =>
    rw [List.cons_append, List.getLast?_cons, ih]
    cases l2 with
    | nil => exact absurd rfl h
    | cons y ys => simp [List.getLast?_cons]

theorem joinSep_not_mem {c : Char} {sep : String} (hsep : c ∉ sep.data) :
    ∀ {parts : List String}, (∀ p ∈ parts, c ∉ p.data) → c ∉ (joinSep sep parts).data := by
  intro parts
  induction parts with
  | nil => intro _ hc; simp [joinSep] at hc
  | cons x xs ih =>
    intro hfree hc
    cases xs with
    | nil =>
      rw [joinSep] at hc
      exact hfree x (List.mem_cons_self x []) hc
    | cons y t =>
      rw [joinSep, String.data_append, String.data_append] at hc
      rcases List.mem_append.1 hc with hc2 | hc2
      · rcases List.mem_append.1 hc2 with hc3 | hc3
        · exact hfree x (List.mem_cons_self x (y :: t)) hc3
        · exact hsep hc3
      · exact ih (fun p hp => hfree p (List.mem_cons_of_mem x hp)) hc2

theorem dropLast_map' {α β : Type} (f : α → β) :
    ∀ (l : List α), (l.map f).dropLast = l.dropLast.map f := by
  intro l
  induction l with
  | nil => rfl
  | cons x xs ih =>
    cases xs with
    | nil => rfl
    | cons y t =>
      simp only [List.map_cons, List.dropLast_cons₂]
      rw [← List.map_cons f y t]
      rw [ih]

theorem getLast_map' {α β : Type} (f : α → β) :
    ∀ (l : List α) (h : l ≠ []) (h2 : l.map f ≠ []),
      (l.map f).getLast h2 = f (l.getLast h) := by
  intro l
  induction l with
  | nil => intro h; exact absurd rfl h
  | cons x xs ih =>
    intro h h2
    cases xs with
    | nil => rfl
    | cons y t =>
      exact ih (by simp) (by simp)

theorem splitOnChar_joinSep_newline :
    ∀ (elems : List String) (h : elems ≠ []) (tail : List Char),
      (∀ e ∈ elems, '\n' ∉ e.data) →
      splitOnChar '\n' ((joinSep ",\n" elems).data ++ '\n' :: tail)
        = (elems.dropLast.map (fun e => e.data ++ [','])) ++
            [(elems.getLast h).data] ++ splitOnChar '\n' tail := by
  intro elems
  induction elems with
  | nil => intro h; exact absurd rfl h
  | cons x xs ih =>
    intro h tail hfree
    cases xs with
    | nil =>
      rw [joinSep, splitOnChar_append (hfree x (List.mem_cons_self x []))]
      simp [List.getLast]
    | cons y t =>
      rw [joinSep, String.data_append, String.data_append,
        show (",\n" : String).data = [',', '\n'] from rfl]
      have e : ((x.data ++ [',', '\n']) ++ (joinSep ",\n" (y :: t)).data) ++ '\n' :: tail
          = (x.data ++ [',']) ++ '\n' :: ((joinSep ",\n" (y :: t)).data ++ '\n' :: tail) := by
        simp
      rw [e]
      have hP : '\n' ∉ x.data ++ [','] := by
        intro hm
        rcases List.mem_append.1 hm with hm | hm
        · exact hfree x (List.mem_cons_self x (y :: t)) hm
        · simp at hm
      rw [splitOnChar_append hP,
        ih (by simp) tail (fun e he => hfree e (List.mem_cons_of_mem x he))]
      simp [List.getLast_cons]

theorem strMk_append (l1 l2 : List Char) :
    String.mk (l1 ++ l2) = String.mk l1 ++ String.mk l2 := by
  apply String.ext
  rw [String.data_append]

/-! ## Claim C5 -/

/-- Claim C5, counterexample. The claim "every array renders one element per
line with a trailing comma after every element including the last" fails for
the dependency arrays: a one-element array rendered by
`dump_toml_array_str` contains no comma at all (`",\n"` only separates
elements). -/
theorem claim_C5_counterexample :
    dump_toml_array_str ["a"] 2 = "[\n  \"a\"\n]"
    ∧ ',' ∉ ("[\n  \"a\"\n]" : String).data :=
  ⟨by decide, by decide⟩

/-- Claim C5, amended. Dependency-style arrays (`dump_toml_array_str`) render
one element per line at the given indentation with a comma after every
element *except the last* (splitting the output on newlines gives exactly
the bracket line, one padded quoted element per line with separator commas,
and the closing bracket line); the `authors` array instead puts a trailing
comma on every element line including the last; and the build-system
`requires` array renders inline on a single line. -/
theorem claim_C5_array_rendering :
    (∀ (arr : List String) (h : arr ≠ []) (ind : Nat),
      (∀ x ∈ arr, '\n' ∉ x.data) →
      (splitOnChar '\n' (dump_toml_array_str arr ind).data).map String.mk
        = "[" :: (arr.dropLast.map (fun x =>
              String.mk (List.replicate ind ' ') ++ "\"" ++ toml_escape x ++ "\"" ++ ","))
            ++ [String.mk (List.replicate ind ' ') ++ "\"" ++ toml_escape (arr.getLast h) ++ "\"",
                String.mk (List.replicate (ind - 2) ' ') ++ "]"])
    ∧ (∀ a : Author, (author_line a).data.getLast? = some ',')
    ∧ (∀ reqs : List String, (∀ x ∈ reqs, '\n' ∉ x.data) →
        '\n' ∉ (requires_line reqs).data) := by
  refine ⟨?_, ?_, ?_⟩
  · intro arr h ind hfree
    have hfree' : ∀ e ∈ arr.map (fun x =>
        String.mk (List.replicate ind ' ') ++ "\"" ++ toml_escape x ++ "\""), '\n' ∉ e.data := by
      intro e he
      obtain ⟨x, hx, rfl⟩ := List.mem_map.1 he
      intro hc
      rw [String.data_append, String.data_append, String.data_append] at hc
      rcases List.mem_append.1 hc with hc | hc
      · rcases List.mem_append.1 hc with hc | hc
        · rcases List.mem_append.1 hc with hc | hc
          · rw [data_strMk] at hc
            exact absurd (List.eq_of_mem_replicate hc) (by decide)
          · exact absurd hc (by decide)
        · exact newline_not_mem_toml_escape (hfree x hx) hc
      · exact absurd hc (by decide)
    have hd : (dump_toml_array_str arr ind).data
        = ['['] ++ '\n' :: ((joinSep ",\n" (arr.map (fun x =>
              String.mk (List.replicate ind ' ') ++ "\"" ++ toml_escape x ++ "\""))).data
            ++ '\n' :: ((String.mk (List.replicate (ind - 2) ' ')).data
              ++ ("]" : String).data)) := by
      rw [dump_toml_array_str]
      simp [String.data_append, List.append_assoc]
    rw [hd]
    rw [splitOnChar_append (by decide : '\n' ∉ ['['])]
    rw [splitOnChar_joinSep_newline _ (by simpa using h) _ hfree']
    rw [splitOnChar_of_not_mem (by
      intro hc
      rcases List.mem_append.1 hc with hc | hc
      · rw [data_strMk] at hc
        exact absurd (List.eq_of_mem_replicate hc) (by decide)
      · exact absurd hc (by decide))]
    rw [dropLast_map', getLast_map' _ arr h]
    simp only [List.map_cons, List.map_append, List.map_map, List.map_nil]
    rw [List.append_assoc]
    rfl
  · intro a
    rcases a with ⟨nm, _ | em⟩
    · rw [author_line]
      rw [String.data_append]
      rw [getLast?_append_right (by decide)]
      rfl
    · rw [author_line]
      rw [String.data_append]
      rw [getLast?_append_right (by decide)]
      rfl
  · intro reqs hfree
    rw [requires_line]
    intro hc
    rw [String.data_append, String.data_append] at hc
    rcases List.mem_append.1 hc with hc | hc
    · rcases List.mem_append.1 hc with hc | hc
      · exact absurd hc (by decide)
      · refine joinSep_not_mem (by decide) ?_ hc
        intro p hp
        obtain ⟨x, hx, rfl⟩ := List.mem_map.1 hp
        intro hc2
        rw [String.data_append, String.data_append] at hc2
        rcases List.mem_append.1 hc2 with hc2 | hc2
        · rcases List.mem_append.1 hc2 with hc2 | hc2
          · exact absurd hc2 (by decide)
          · exact newline_not_mem_toml_escape (hfree x hx) hc2
        · exact absurd hc2 (by decide)
    · exact absurd hc (by decide)

/-- Witness for the amended C5: the line decomposition of a concrete
one-element dependency array. -/
theorem claim_C5_array_rendering_witness :
    (splitOnChar '\n' (dump_toml_array_str ["a"] 2).data).map String.mk
      = "[" :: ((["a"].dropLast).map (fun x =>
            String.mk (List.replicate 2 ' ') ++ "\"" ++ toml_escape x ++ "\"" ++ ","))
          ++ [String.mk (List.replicate 2 ' ') ++ "\""
                ++ toml_escape (["a"].getLast (by decide)) ++ "\"",
              String.mk (List.replicate (2 - 2) ' ') ++ "]"] :=
  claim_C5_array_rendering.1 ["a"] (by decide) 2 (by decide)
